import Mathlib

/-!
Verification of the platform icon container encoders in
scripts/generate-all-icons.js: the ICO (Windows) encoder createIco and the
ICNS (Apple) encoder createIcns.  Byte buffers are modelled as lists of
natural numbers (each byte a value below 256); machine-integer writes
(writeUInt16LE, writeUInt32LE, writeUInt32BE) are modelled as explicit
little-endian respectively big-endian byte decompositions.
-/

/-- Little-endian byte decomposition of v into k bytes, as performed by
Node's writeUInt16LE and writeUInt32LE on in-range values. -/
def leBytes : Nat → Nat → List Nat
  | 0, _ => []
  | k + 1, v => v % 256 :: leBytes k (v / 256)

/-- Big-endian byte decomposition of v into k bytes, as performed by
Node's writeUInt32BE on in-range values. -/
def beBytes (k v : Nat) : List Nat :=
  (leBytes k v).reverse

/-- Decode a little-endian byte sequence back to a natural number. -/
def readLE (bs : List Nat) : Nat :=
  bs.foldr (fun b acc => b + 256 * acc) 0

/-- Decode a big-endian byte sequence back to a natural number. -/
def readBE (bs : List Nat) : Nat :=
  bs.foldl (fun acc b => 256 * acc + b) 0

/-- ASCII bytes of a string, as written by Buffer.write with encoding
ascii for the pure-ASCII literals appearing in the source. -/
def ascii (s : String) : List Nat :=
  s.toList.map Char.toNat

/-- A rendered icon frame: its square pixel size and its encoded raster
buffer.  Mirrors the elements of the images array built at the top of
createIco (width = height = size, data = the PNG buffer). -/
structure RasterImage where
  size : Nat
  data : List Nat
deriving DecidableEq, Repr

/-- The width/height byte of an ICO directory entry:
img.width >= 256 ? 0 : img.width in the source. -/
def icoEntryWH (size : Nat) : Nat :=
  if 256 ≤ size then 0 else size

/-- Absolute data offset of entry i: headerSize + dirEntrySize * numImages
plus the data lengths of all earlier images, exactly the value the
source accumulates into imageOffsets. -/
def icoOffset (imgs : List RasterImage) (i : Nat) : Nat :=
  6 + 16 * imgs.length + ((imgs.take i).map fun im => im.data.length).sum

/-- One 16-byte ICO directory entry, in the order the source writes its
fields: width, height, colorPalette 0, reserved 0, colorPlanes 1 (LE16),
bitsPerPixel 32 (LE16), data size (LE32), data offset (LE32). -/
def icoDirEntry (img : RasterImage) (dataOff : Nat) : List Nat :=
  [icoEntryWH img.size, icoEntryWH img.size, 0, 0]
    ++ leBytes 2 1 ++ leBytes 2 32
    ++ leBytes 4 img.data.length ++ leBytes 4 dataOff

/-- The directory block of the ICO container: one 16-byte entry per image
in input order. -/
def icoDir (imgs : List RasterImage) : List Nat :=
  ((List.range imgs.length).map fun i =>
    icoDirEntry (imgs.getD i ⟨0, []⟩) (icoOffset imgs i)).flatten

/-- The ICO encoder createIco: 6-byte header (reserved 0, type 1, count,
all little-endian), the directory, then every image's data concatenated
in input order. -/
def createIco (imgs : List RasterImage) : List Nat :=
  leBytes 2 0 ++ leBytes 2 1 ++ leBytes 2 imgs.length
    ++ icoDir imgs ++ (imgs.map RasterImage.data).flatten

/-- The ICNS type-code registry icnsTypes of the source.  Object.entries
iterates the integer-like keys of this object literal in ascending
numeric order, which is also the literal's own order, so the registry is
an ordered association list. -/
def icnsTypes : List (Nat × String) :=
  [(16, "icp4"), (32, "icp5"), (64, "icp6"), (128, "ic07"),
   (256, "ic08"), (512, "ic09"), (1024, "ic10")]

/-- One ICNS chunk: 4-byte ASCII type code, 4-byte big-endian length
equal to 8 + data length, then the raw data. -/
def icnsChunk (tc : String) (png : List Nat) : List Nat :=
  ascii tc ++ beBytes 4 (8 + png.length) ++ png

/-- The chunk list built by createIcns: the registry is traversed in
order and a chunk is emitted for each size the input mapping contains;
sizes absent from the mapping produce nothing (if png is falsy the body
is skipped). -/
def icnsChunks (pngs : Nat → Option (List Nat)) : List (List Nat) :=
  icnsTypes.filterMap fun p => (pngs p.1).map fun png => icnsChunk p.2 png

/-- The ICNS encoder createIcns: magic icns, big-endian total length
(8 plus the summed chunk lengths, header included), then the chunks. -/
def createIcns (pngs : Nat → Option (List Nat)) : List Nat :=
  ascii "icns"
    ++ beBytes 4 (8 + ((icnsChunks pngs).map List.length).sum)
    ++ (icnsChunks pngs).flatten

/-! ## Byte-encoding lemmas -/

theorem readLE_cons (b : Nat) (bs : List Nat) :
    readLE (b :: bs) = b + 256 * readLE bs := rfl

theorem leBytes_length (k v : Nat) : (leBytes k v).length = k := by
  induction k generalizing v with
  | zero => rfl
  | succ k ih => simp [leBytes, ih]

theorem beBytes_length (k v : Nat) : (beBytes k v).length = k := by
  simp [beBytes, leBytes_length]

theorem readLE_leBytes (k v : Nat) : readLE (leBytes k v) = v % 256 ^ k := by
  induction k generalizing v with
  | zero => simp [leBytes, readLE]; omega
  | succ k ih =>
    rw [leBytes, readLE_cons, ih, pow_succ, mul_comm (256 ^ k) 256, Nat.mod_mul]

theorem readBE_reverse (l : List Nat) : readBE l.reverse = readLE l := by
  induction l with
  | nil => rfl
  | cons b bs ih =>
    simp only [List.reverse_cons, readBE, List.foldl_append, List.foldl_cons,
      List.foldl_nil, readLE_cons]
    simp only [readBE] at ih
    rw [ih]
    omega

theorem readBE_beBytes (k v : Nat) : readBE (beBytes k v) = v % 256 ^ k := by
  rw [beBytes, readBE_reverse, readLE_leBytes]

theorem readLE_leBytes_of_lt {k v : Nat} (h : v < 256 ^ k) :
    readLE (leBytes k v) = v := by
  rw [readLE_leBytes, Nat.mod_eq_of_lt h]

theorem readBE_beBytes_of_lt {k v : Nat} (h : v < 256 ^ k) :
    readBE (beBytes k v) = v := by
  rw [readBE_beBytes, Nat.mod_eq_of_lt h]

/-! ## Structural lemmas about the ICO layout -/

theorem icoDirEntry_length (img : RasterImage) (off : Nat) :
    (icoDirEntry img off).length = 16 := by
  simp [icoDirEntry, leBytes_length]

theorem sum_map_length_const {α : Type} (L : List α) (f : α → List Nat) (c : Nat)
    (h : ∀ a ∈ L, (f a).length = c) :
    ((L.map f).map List.length).sum = c * L.length := by
  induction L with
  | nil => simp
  | cons x xs ih =>
    simp only [List.map_cons, List.sum_cons, List.length_cons]
    rw [h x (by simp), ih fun a ha => h a (by simp [ha])]
    ring

theorem icoDir_length (imgs : List RasterImage) :
    (icoDir imgs).length = 16 * imgs.length := by
  rw [icoDir, List.length_flatten,
    sum_map_length_const _ _ 16 (fun a _ => icoDirEntry_length _ _)]
  simp

theorem createIco_length (imgs : List RasterImage) :
    (createIco imgs).length =
      6 + 16 * imgs.length + ((imgs.map fun im => im.data.length).sum) := by
  simp [createIco, leBytes_length, icoDir_length, List.length_flatten,
    List.map_map, Function.comp_def]
  omega

theorem drop_len_append (a b : List Nat) (n : Nat) (h : a.length = n) :
    (a ++ b).drop n = b := by
  rw [← h]
  exact List.drop_left a b

/-- Dropping c*i bytes from the flattening of lists that all have length c
drops the first i lists. -/
theorem flatten_drop_uniform (c : Nat) :
    ∀ (i : Nat) (L : List (List Nat)), (∀ l ∈ L, l.length = c) →
      L.flatten.drop (c * i) = (L.drop i).flatten := by
  intro i
  induction i with
  | zero => intro L _; simp
  | succ i ih =>
    intro L h
    cases L with
    | nil => simp
    | cons x xs =>
      have hx : x.length = c := h x (by simp)
      have hx' : List.drop c x = [] := by rw [← hx, List.drop_length]
      simp only [List.flatten_cons, List.drop_succ_cons]
      rw [Nat.mul_succ, Nat.add_comm, ← List.drop_drop,
        List.drop_append_of_le_length (by omega), hx', List.nil_append]
      exact ih xs fun l hl => h l (by simp [hl])

/-- Dropping the summed lengths of the first i lists from a flattening
drops the first i lists. -/
theorem flatten_drop_sum :
    ∀ (i : Nat) (L : List (List Nat)),
      L.flatten.drop (((L.take i).map List.length).sum) = (L.drop i).flatten := by
  intro i
  induction i with
  | zero => intro L; simp
  | succ i ih =>
    intro L
    cases L with
    | nil => simp
    | cons x xs =>
      simp only [List.take_succ_cons, List.map_cons, List.sum_cons,
        List.flatten_cons, List.drop_succ_cons]
      rw [← List.drop_drop, List.drop_left]
      exact ih xs

/-- createIco as a header of six literal bytes followed by the directory
and the data block. -/
theorem createIco_expand (imgs : List RasterImage) :
    createIco imgs =
      ([0, 0, 1, 0] ++ leBytes 2 imgs.length) ++
        (icoDir imgs ++ (imgs.map RasterImage.data).flatten) := rfl

/-- An ICO directory entry in fully evaluated cons form. -/
theorem icoDirEntry_cons (img : RasterImage) (off : Nat) :
    icoDirEntry img off =
      icoEntryWH img.size :: icoEntryWH img.size :: 0 :: 0 :: 1 :: 0 :: 32 :: 0 ::
        (leBytes 4 img.data.length ++ leBytes 4 off) := rfl

/-- Dropping the header and the first i directory entries exposes entry i
at the head of the remaining bytes. -/
theorem createIco_drop_entry (imgs : List RasterImage) (i : Nat) (h : i < imgs.length) :
    ∃ rest, (createIco imgs).drop (6 + 16 * i) =
      icoDirEntry (imgs.getD i ⟨0, []⟩) (icoOffset imgs i) ++ rest := by
  have hhead : ([0, 0, 1, 0] ++ leBytes 2 imgs.length).length = 6 := by
    simp [leBytes_length]
  have hmem : ∀ l ∈ (List.range imgs.length).map fun j =>
      icoDirEntry (imgs.getD j ⟨0, []⟩) (icoOffset imgs j), l.length = 16 := by
    intro l hl
    obtain ⟨j, _, rfl⟩ := List.mem_map.mp hl
    exact icoDirEntry_length _ _
  have hlt : i < ((List.range imgs.length).map fun j =>
      icoDirEntry (imgs.getD j ⟨0, []⟩) (icoOffset imgs j)).length := by
    simpa using h
  have hdir : (icoDir imgs).drop (16 * i) =
      icoDirEntry (imgs.getD i ⟨0, []⟩) (icoOffset imgs i) ++
        (((List.range imgs.length).map fun j =>
          icoDirEntry (imgs.getD j ⟨0, []⟩) (icoOffset imgs j)).drop (i + 1)).flatten := by
    rw [icoDir, flatten_drop_uniform 16 i _ hmem, List.drop_eq_getElem_cons hlt,
      List.flatten_cons]
    congr 1
    simp
  refine ⟨(((List.range imgs.length).map fun j =>
      icoDirEntry (imgs.getD j ⟨0, []⟩) (icoOffset imgs j)).drop (i + 1)).flatten ++
        (imgs.map RasterImage.data).flatten, ?_⟩
  rw [createIco_expand, show 6 + 16 * i =
      ([0, 0, 1, 0] ++ leBytes 2 imgs.length).length + 16 * i by rw [hhead],
    List.drop_append, List.drop_append_of_le_length
      (by rw [icoDir_length]; exact Nat.mul_le_mul_left 16 (Nat.le_of_lt h)),
    hdir, List.append_assoc]

/-! ## ICO claims -/

/-- A small concrete icon set used to instantiate the universally
quantified theorems: sizes 16, 256 and 300 with payloads of lengths
3, 2 and 1. -/
def exIco : List RasterImage :=
  [⟨16, [1, 2, 3]⟩, ⟨256, [4, 5]⟩, ⟨300, [6]⟩]

/-- C1: for every non-empty list of N RasterImages (1 ≤ N ≤ 65535) with
distinct sizes, createIco produces a buffer of length
6 + 16*N + the sum of all data lengths whose first six bytes are the
little-endian fields reserved = 0, type = 1 and count = N. -/
theorem ico_header_and_length (imgs : List RasterImage)
    (h1 : 1 ≤ imgs.length) (h2 : imgs.length ≤ 65535)
    (_h3 : (imgs.map RasterImage.size).Nodup) :
    (createIco imgs).length =
      6 + 16 * imgs.length + ((imgs.map fun im => im.data.length).sum) ∧
    readLE ((createIco imgs).take 2) = 0 ∧
    readLE (((createIco imgs).drop 2).take 2) = 1 ∧
    readLE (((createIco imgs).drop 4).take 2) = imgs.length := by
  refine ⟨createIco_length imgs, rfl, rfl, ?_⟩
  have hdrop : (createIco imgs).drop 4 =
      leBytes 2 imgs.length ++ (icoDir imgs ++ (imgs.map RasterImage.data).flatten) := rfl
  rw [hdrop, List.take_left' (leBytes_length 2 _), readLE_leBytes_of_lt]
  have : (256 : Nat) ^ 2 = 65536 := by norm_num
  omega

/-- C1 witness: the theorem instantiated at the concrete three-image set. -/
theorem ico_header_and_length_witness :
    (1 ≤ exIco.length ∧ exIco.length ≤ 65535 ∧ (exIco.map RasterImage.size).Nodup) ∧
    ((createIco exIco).length =
      6 + 16 * exIco.length + ((exIco.map fun im => im.data.length).sum) ∧
    readLE ((createIco exIco).take 2) = 0 ∧
    readLE (((createIco exIco).drop 2).take 2) = 1 ∧
    readLE (((createIco exIco).drop 4).take 2) = exIco.length) :=
  ⟨⟨by decide, by decide, by decide⟩,
    ico_header_and_length exIco (by decide) (by decide) (by decide)⟩

/-- C3: in the directory entry of an image of size 256 the emitted width
and height bytes are 0, and for a size in the range 1..255 they both
equal the size itself. -/
theorem ico_entry_wh_bytes (imgs : List RasterImage) (i : Nat)
    (h : i < imgs.length) :
    ((imgs.getD i ⟨0, []⟩).size = 256 →
      ((createIco imgs).drop (6 + 16 * i)).take 2 = [0, 0]) ∧
    (1 ≤ (imgs.getD i ⟨0, []⟩).size → (imgs.getD i ⟨0, []⟩).size ≤ 255 →
      ((createIco imgs).drop (6 + 16 * i)).take 2 =
        [(imgs.getD i ⟨0, []⟩).size, (imgs.getD i ⟨0, []⟩).size]) := by
  obtain ⟨rest, hr⟩ := createIco_drop_entry imgs i h
  rw [hr, icoDirEntry_cons]
  constructor
  · intro hs
    show [icoEntryWH (imgs.getD i ⟨0, []⟩).size,
          icoEntryWH (imgs.getD i ⟨0, []⟩).size] = [0, 0]
    unfold icoEntryWH
    rw [if_pos (by omega)]
  · intro hlo hhi
    show [icoEntryWH (imgs.getD i ⟨0, []⟩).size,
          icoEntryWH (imgs.getD i ⟨0, []⟩).size] =
      [(imgs.getD i ⟨0, []⟩).size, (imgs.getD i ⟨0, []⟩).size]
    unfold icoEntryWH
    rw [if_neg (by omega)]

/-- C3 witness: instantiated at the size-256 entry (index 1) of the
concrete set. -/
theorem ico_entry_wh_bytes_witness :
    1 < exIco.length ∧
    (((exIco.getD 1 ⟨0, []⟩).size = 256 →
      ((createIco exIco).drop (6 + 16 * 1)).take 2 = [0, 0]) ∧
    (1 ≤ (exIco.getD 1 ⟨0, []⟩).size → (exIco.getD 1 ⟨0, []⟩).size ≤ 255 →
      ((createIco exIco).drop (6 + 16 * 1)).take 2 =
        [(exIco.getD 1 ⟨0, []⟩).size, (exIco.getD 1 ⟨0, []⟩).size])) :=
  ⟨by decide, ico_entry_wh_bytes exIco 1 (by decide)⟩

/-- C9: every image whose size is at least 256 (not only exactly 256)
gets width and height bytes 0 in its directory entry, with no error:
all such sizes are indistinguishable in those two fields. -/
theorem ico_entry_wh_ge256 (imgs : List RasterImage) (i : Nat)
    (h : i < imgs.length) (hs : 256 ≤ (imgs.getD i ⟨0, []⟩).size) :
    ((createIco imgs).drop (6 + 16 * i)).take 2 = [0, 0] := by
  obtain ⟨rest, hr⟩ := createIco_drop_entry imgs i h
  rw [hr, icoDirEntry_cons]
  show [icoEntryWH (imgs.getD i ⟨0, []⟩).size,
        icoEntryWH (imgs.getD i ⟨0, []⟩).size] = [0, 0]
  unfold icoEntryWH
  rw [if_pos hs]

/-- C9 witness: instantiated at the size-300 entry (index 2) of the
concrete set. -/
theorem ico_entry_wh_ge256_witness :
    (2 < exIco.length ∧ 256 ≤ (exIco.getD 2 ⟨0, []⟩).size) ∧
    ((createIco exIco).drop (6 + 16 * 2)).take 2 = [0, 0] :=
  ⟨⟨by decide, by decide⟩, ico_entry_wh_ge256 exIco 2 (by decide) (by decide)⟩

/-- C4: directory entry i carries dataSize = the length of image i's
data and dataOffset = 6 + 16*N + the summed lengths of the earlier
images' data, and image i's data appears verbatim at that offset
(the data block is the input-order concatenation with no padding). -/
theorem ico_entry_offsets (imgs : List RasterImage) (i : Nat)
    (h : i < imgs.length)
    (hlen : (imgs.getD i ⟨0, []⟩).data.length < 2 ^ 32)
    (hoff : icoOffset imgs i < 2 ^ 32) :
    readLE (((createIco imgs).drop (6 + 16 * i + 8)).take 4) =
      (imgs.getD i ⟨0, []⟩).data.length ∧
    readLE (((createIco imgs).drop (6 + 16 * i + 12)).take 4) = icoOffset imgs i ∧
    icoOffset imgs i =
      6 + 16 * imgs.length + ((imgs.take i).map fun im => im.data.length).sum ∧
    ((createIco imgs).drop (icoOffset imgs i)).take
        ((imgs.getD i ⟨0, []⟩).data.length) = (imgs.getD i ⟨0, []⟩).data := by
  have hpow : (256 : Nat) ^ 4 = 2 ^ 32 := by norm_num
  obtain ⟨rest, hr⟩ := createIco_drop_entry imgs i h
  refine ⟨?_, ?_, rfl, ?_⟩
  · have h8 : (createIco imgs).drop (6 + 16 * i + 8) =
        ((createIco imgs).drop (6 + 16 * i)).drop 8 := by
      rw [List.drop_drop]
    rw [h8, hr, icoDirEntry_cons]
    simp only [List.cons_append, List.drop_succ_cons, List.drop_zero, List.append_assoc]
    rw [List.take_left' (leBytes_length 4 _),
      readLE_leBytes_of_lt (lt_of_lt_of_eq hlen hpow.symm)]
  · have h12 : (createIco imgs).drop (6 + 16 * i + 12) =
        ((createIco imgs).drop (6 + 16 * i)).drop 12 := by
      rw [List.drop_drop]
    rw [h12, hr, icoDirEntry_cons]
    simp only [List.cons_append, List.drop_succ_cons, List.drop_zero, List.append_assoc]
    rw [drop_len_append _ _ 4 (leBytes_length 4 _),
      List.take_left' (leBytes_length 4 _),
      readLE_leBytes_of_lt (lt_of_lt_of_eq hoff hpow.symm)]
  · have hsplit : createIco imgs =
        (([0, 0, 1, 0] ++ leBytes 2 imgs.length) ++ icoDir imgs) ++
          (imgs.map RasterImage.data).flatten := by
      rw [createIco_expand]
      simp [List.append_assoc]
    have hplen : (([0, 0, 1, 0] ++ leBytes 2 imgs.length) ++ icoDir imgs).length =
        6 + 16 * imgs.length := by
      simp [leBytes_length, icoDir_length]
      omega
    have hioff : icoOffset imgs i =
        (([0, 0, 1, 0] ++ leBytes 2 imgs.length) ++ icoDir imgs).length +
          (((imgs.map RasterImage.data).take i).map List.length).sum := by
      rw [hplen, icoOffset]
      simp [← List.map_take, List.map_map, Function.comp_def]
    rw [hsplit, hioff, List.drop_append, flatten_drop_sum]
    have hlt : i < (imgs.map RasterImage.data).length := by simpa using h
    obtain ⟨restD, hD⟩ : ∃ restD, (imgs.map RasterImage.data).drop i =
        (imgs.map RasterImage.data).get ⟨i, hlt⟩ :: restD :=
      ⟨(imgs.map RasterImage.data).drop (i + 1), by
        rw [List.drop_eq_getElem_cons hlt]
        simp [List.get_eq_getElem]⟩
    rw [hD, List.flatten_cons]
    have hget : (imgs.map RasterImage.data).get ⟨i, hlt⟩ =
        (imgs.getD i ⟨0, []⟩).data := by
      simp [List.getD, List.getElem?_eq_getElem h, List.get_eq_getElem]
    rw [hget, List.take_left' rfl]

/-- C4 witness: the theorem instantiated at index 1 of the concrete set,
where the expected offset is 6 + 16*3 + 3 = 57. -/
theorem ico_entry_offsets_witness :
    (1 < exIco.length ∧ (exIco.getD 1 ⟨0, []⟩).data.length < 2 ^ 32 ∧
      icoOffset exIco 1 < 2 ^ 32) ∧
    (readLE (((createIco exIco).drop (6 + 16 * 1 + 8)).take 4) =
      (exIco.getD 1 ⟨0, []⟩).data.length ∧
    readLE (((createIco exIco).drop (6 + 16 * 1 + 12)).take 4) = icoOffset exIco 1 ∧
    icoOffset exIco 1 =
      6 + 16 * exIco.length + ((exIco.take 1).map fun im => im.data.length).sum ∧
    ((createIco exIco).drop (icoOffset exIco 1)).take
        ((exIco.getD 1 ⟨0, []⟩).data.length) = (exIco.getD 1 ⟨0, []⟩).data) :=
  ⟨⟨by decide, by decide, by decide⟩,
    ico_entry_offsets exIco 1 (by decide) (by decide) (by decide)⟩

/-- C7 counterexample: invoked on the empty list, createIco raises no
error and does produce bytes: the 6-byte header with count 0. -/
theorem ico_empty_counterexample :
    createIco [] = [0, 0, 1, 0, 0, 0] ∧ (createIco []).length = 6 := by
  constructor <;> decide

/-- C7 amended: on an empty image list the encoder does not fail; it
returns exactly the 6-byte header (reserved 0, type 1, count 0) with no
directory entries and no image data. -/
theorem ico_empty_header_only :
    createIco [] = leBytes 2 0 ++ leBytes 2 1 ++ leBytes 2 0 ∧
    icoDir [] = [] ∧ (([] : List RasterImage).map RasterImage.data).flatten = [] := by
  refine ⟨by decide, by decide, by decide⟩

/-! ## Structural lemmas about the ICNS layout -/

theorem ascii_icns_length : (ascii "icns").length = 4 := by decide

theorem icnsTypes_code_length : ∀ p ∈ icnsTypes, (ascii p.2).length = 4 := by
  decide

theorem icnsChunk_length (tc : String) (png : List Nat)
    (h4 : (ascii tc).length = 4) :
    (icnsChunk tc png).length = 8 + png.length := by
  simp [icnsChunk, beBytes_length, h4]
  omega

theorem createIcns_length (pngs : Nat → Option (List Nat)) :
    (createIcns pngs).length = 8 + ((icnsChunks pngs).map List.length).sum := by
  simp [createIcns, beBytes_length, List.length_flatten, ascii_icns_length]
  omega

theorem icnsChunks_eq_map_filter (pngs : Nat → Option (List Nat)) :
    ∀ l : List (Nat × String),
      (l.filterMap fun p => (pngs p.1).map fun png => icnsChunk p.2 png) =
        (l.filter fun p => (pngs p.1).isSome).map
          fun p => icnsChunk p.2 ((pngs p.1).getD []) := by
  intro l
  induction l with
  | nil => rfl
  | cons x xs ih =>
    cases hx : pngs x.1 <;>
      simp [List.filterMap_cons, List.filter_cons, hx, ih]

/-! ## ICNS claims -/

/-- The size-to-type-code table exactly as the spec states it in its
section 4.3, used to check the source registry against the spec's
wording. -/
def icnsTypeCodeSpec (s : Nat) : Option String :=
  if s = 16 then some "icp4"
  else if s = 32 then some "icp5"
  else if s = 64 then some "icp6"
  else if s = 128 then some "ic07"
  else if s = 256 then some "ic08"
  else if s = 512 then some "ic09"
  else if s = 1024 then some "ic10"
  else none

/-- A concrete ICNS input mapping with sizes 16 and 512 present. -/
def exIcns : Nat → Option (List Nat) :=
  fun t => if t = 512 then some [1] else if t = 16 then some [2, 3] else none

/-- C2: the ICNS output starts with the ASCII magic icns, bytes 4..7 read
big-endian give the buffer's own total length, and every chunk is a
4-byte ASCII type code, a 4-byte big-endian length equal to 8 plus the
chunk's data length, then the raw data. -/
theorem icns_header_and_chunks (pngs : Nat → Option (List Nat))
    (h : (createIcns pngs).length < 2 ^ 32) :
    (createIcns pngs).take 4 = ascii "icns" ∧
    readBE (((createIcns pngs).drop 4).take 4) = (createIcns pngs).length ∧
    ∀ c ∈ icnsChunks pngs, ∃ p png, p ∈ icnsTypes ∧ pngs p.1 = some png ∧
      c = ascii p.2 ++ beBytes 4 (8 + png.length) ++ png ∧
      readBE ((c.drop 4).take 4) = 8 + png.length := by
  have htot : (createIcns pngs).length =
      8 + ((icnsChunks pngs).map List.length).sum := createIcns_length pngs
  refine ⟨?_, ?_, ?_⟩
  · rw [createIcns, List.append_assoc, List.take_left' ascii_icns_length]
  · rw [createIcns, List.append_assoc, drop_len_append _ _ 4 ascii_icns_length,
      List.take_left' (beBytes_length 4 _), readBE_beBytes_of_lt (by omega)]
    exact (createIcns_length pngs).symm
  · intro c hc
    simp only [icnsChunks, List.mem_filterMap] at hc
    obtain ⟨p, hp, hmap⟩ := hc
    obtain ⟨png, hpng, hchunk⟩ := Option.map_eq_some'.mp hmap
    refine ⟨p, png, hp, hpng, by rw [← hchunk, icnsChunk, List.append_assoc], ?_⟩
    have hclen : c.length = 8 + png.length := by
      rw [← hchunk]
      exact icnsChunk_length _ _ (icnsTypes_code_length p hp)
    have hmem : c.length ∈ (icnsChunks pngs).map List.length := by
      apply List.mem_map_of_mem
      simp only [icnsChunks, List.mem_filterMap]
      exact ⟨p, hp, hmap⟩
    have hle : c.length ≤ ((icnsChunks pngs).map List.length).sum :=
      List.single_le_sum (fun x _ => Nat.zero_le x) _ hmem
    rw [← hchunk, icnsChunk, List.append_assoc,
      drop_len_append _ _ 4 (icnsTypes_code_length p hp),
      List.take_left' (beBytes_length 4 _), readBE_beBytes_of_lt (by omega)]

/-- C2 witness: the theorem instantiated at the two-size concrete
mapping. -/
theorem icns_header_and_chunks_witness :
    (createIcns exIcns).length < 2 ^ 32 ∧
    ((createIcns exIcns).take 4 = ascii "icns" ∧
    readBE (((createIcns exIcns).drop 4).take 4) = (createIcns exIcns).length ∧
    ∀ c ∈ icnsChunks exIcns, ∃ p png, p ∈ icnsTypes ∧ exIcns p.1 = some png ∧
      c = ascii p.2 ++ beBytes 4 (8 + png.length) ++ png ∧
      readBE ((c.drop 4).take 4) = 8 + png.length) :=
  ⟨by decide, icns_header_and_chunks exIcns (by decide)⟩

/-- C5: a size absent from the type-code registry contributes nothing to
the ICNS output: removing it from the input mapping leaves the output,
and hence the emitted total length, unchanged, and no error is raised. -/
theorem icns_skips_unregistered (pngs : Nat → Option (List Nat))
    (s : Nat) (buf : List Nat)
    (hs : s ∉ icnsTypes.map Prod.fst) (_hin : pngs s = some buf) :
    createIcns pngs = createIcns fun t => if t = s then none else pngs t := by
  have hchunks : icnsChunks pngs =
      icnsChunks fun t => if t = s then none else pngs t := by
    unfold icnsChunks
    apply List.filterMap_congr
    intro p hp
    have hne : p.1 ≠ s := by
      intro he
      exact hs (he ▸ List.mem_map_of_mem Prod.fst hp)
    simp [hne]
  rw [createIcns, createIcns, hchunks]

/-- C5 witness: scenario C of the spec, a mapping holding the unmapped
size 33 next to size 16; dropping 33 does not change the output. -/
theorem icns_skips_unregistered_witness :
    ((33 : Nat) ∉ icnsTypes.map Prod.fst ∧
      (fun t => if t = 33 then some [9] else exIcns t) 33 = some [9]) ∧
    createIcns (fun t => if t = 33 then some [9] else exIcns t) =
      createIcns fun t => if t = 33 then none
        else (fun u => if u = 33 then some [9] else exIcns u) t :=
  ⟨⟨by decide, by decide⟩,
    icns_skips_unregistered _ 33 [9] (by decide) (by decide)⟩

/-- C6: chunks appear in ascending size order regardless of how the
input mapping was populated (the encoder iterates the registry, not the
input), and the registry maps each size to exactly the type code the
spec's table gives. -/
theorem icns_chunks_ascending (pngs : Nat → Option (List Nat)) :
    ((icnsTypes.filter fun p => (pngs p.1).isSome).map Prod.fst).Sorted (· < ·) ∧
    icnsChunks pngs = (icnsTypes.filter fun p => (pngs p.1).isSome).map
      (fun p => icnsChunk p.2 ((pngs p.1).getD [])) ∧
    ∀ p ∈ icnsTypes, icnsTypeCodeSpec p.1 = some p.2 := by
  refine ⟨?_, icnsChunks_eq_map_filter pngs icnsTypes, by decide⟩
  have hsub : List.Sublist
      ((icnsTypes.filter fun p => (pngs p.1).isSome).map Prod.fst)
      (icnsTypes.map Prod.fst) :=
    (List.filter_sublist icnsTypes).map Prod.fst
  have hsorted : (icnsTypes.map Prod.fst).Sorted (· < ·) := by decide
  exact hsorted.sublist hsub

/-- C6 witness: instantiated at the concrete mapping that holds sizes 512
and 16; the registry rows are checked against the spec table. -/
theorem icns_chunks_ascending_witness :
    ((icnsTypes.filter fun p => (exIcns p.1).isSome).map Prod.fst).Sorted (· < ·) ∧
    icnsChunks exIcns = (icnsTypes.filter fun p => (exIcns p.1).isSome).map
      (fun p => icnsChunk p.2 ((exIcns p.1).getD [])) ∧
    icnsTypeCodeSpec 512 = some "ic09" :=
  ⟨(icns_chunks_ascending exIcns).1, (icns_chunks_ascending exIcns).2.1,
    (icns_chunks_ascending exIcns).2.2 (512, "ic09") (by decide)⟩

/-- C8: when no registry size is present in the input mapping the
encoder still succeeds and emits the valid 8-byte empty-body container:
the magic icns followed by the big-endian total length 8. -/
theorem icns_empty_container (pngs : Nat → Option (List Nat))
    (h : ∀ p ∈ icnsTypes, pngs p.1 = none) :
    createIcns pngs = [105, 99, 110, 115, 0, 0, 0, 8] := by
  have h16 : pngs 16 = none := h (16, "icp4") (by decide)
  have h32 : pngs 32 = none := h (32, "icp5") (by decide)
  have h64 : pngs 64 = none := h (64, "icp6") (by decide)
  have h128 : pngs 128 = none := h (128, "ic07") (by decide)
  have h256 : pngs 256 = none := h (256, "ic08") (by decide)
  have h512 : pngs 512 = none := h (512, "ic09") (by decide)
  have h1024 : pngs 1024 = none := h (1024, "ic10") (by decide)
  have hchunks : icnsChunks pngs = [] := by
    simp [icnsChunks, icnsTypes, List.filterMap_cons,
      h16, h32, h64, h128, h256, h512, h1024]
  unfold createIcns
  rw [hchunks]
  decide

/-- C8 witness: the all-empty mapping yields exactly the 8-byte
container. -/
theorem icns_empty_container_witness :
    (∀ p ∈ icnsTypes, (fun _ : Nat => (none : Option (List Nat))) p.1 = none) ∧
    createIcns (fun _ => none) = [105, 99, 110, 115, 0, 0, 0, 8] :=
  ⟨by decide, icns_empty_container (fun _ => none) (by decide)⟩

/-! ## Stateful buffer model for the frame claim

The source mutates pre-allocated Node buffers through absolute-offset
writes (writeUInt8, writeUInt16LE, writeUInt32LE, writeUInt32BE,
Buffer.write) and through Buffer.copy, whose receiver is the source
buffer and whose argument is the mutated target.  The model is a store
of buffers addressed by id; the input data buffers occupy the first
ids and every operation the encoders perform is replayed in source
order. -/

/-- A primitive buffer operation: Buffer.alloc appends a fresh
zero-filled buffer whose id is the store's previous length; writeBytes
overwrites bytes of one buffer at an absolute offset; copyFrom copies
the whole source buffer into the target at an offset. -/
inductive BufOp where
  | alloc : Nat → BufOp
  | writeBytes : Nat → Nat → List Nat → BufOp
  | copyFrom : Nat → Nat → Nat → BufOp
deriving DecidableEq, Repr

/-- Overwrite buf at offset off with the given bytes (every write the
encoders perform is in bounds). -/
def writeAt (buf : List Nat) (off : Nat) (bs : List Nat) : List Nat :=
  buf.take off ++ bs ++ buf.drop (off + bs.length)

/-- One step of the buffer store. -/
def stepOp (st : List (List Nat)) : BufOp → List (List Nat)
  | BufOp.alloc n => st ++ [List.replicate n 0]
  | BufOp.writeBytes t off bs => st.set t (writeAt (st.getD t []) off bs)
  | BufOp.copyFrom s t off => st.set t (writeAt (st.getD t []) off (st.getD s []))

/-- Run a list of operations left to right. -/
def runOps (st : List (List Nat)) (ops : List BufOp) : List (List Nat) :=
  ops.foldl stepOp st

/-- The buffer id a BufOp mutates, if any. -/
def opTarget : BufOp → Option Nat
  | BufOp.alloc _ => none
  | BufOp.writeBytes t _ _ => some t
  | BufOp.copyFrom _ t _ => some t

/-- The writes createIco performs for directory entry i, in source
order: width, height, palette, reserved, planes, bit depth, data size,
data offset. -/
def icoEntryOps (out off : Nat) (img : RasterImage) (dataOff : Nat) : List BufOp :=
  [BufOp.writeBytes out off [icoEntryWH img.size],
   BufOp.writeBytes out (off + 1) [icoEntryWH img.size],
   BufOp.writeBytes out (off + 2) [0],
   BufOp.writeBytes out (off + 3) [0],
   BufOp.writeBytes out (off + 4) (leBytes 2 1),
   BufOp.writeBytes out (off + 6) (leBytes 2 32),
   BufOp.writeBytes out (off + 8) (leBytes 4 img.data.length),
   BufOp.writeBytes out (off + 12) (leBytes 4 dataOff)]

/-- The op sequence of createIco, run against a store holding the input
data buffers at ids 0..N-1: allocate the output buffer (id N), write the
header, write the directory entries, then copy each input buffer to its
computed offset. -/
def icoProgram (imgs : List RasterImage) : List BufOp :=
  BufOp.alloc (6 + 16 * imgs.length + ((imgs.map fun im => im.data.length).sum)) ::
  BufOp.writeBytes imgs.length 0 (leBytes 2 0) ::
  BufOp.writeBytes imgs.length 2 (leBytes 2 1) ::
  BufOp.writeBytes imgs.length 4 (leBytes 2 imgs.length) ::
  (((List.range imgs.length).map fun i =>
      icoEntryOps imgs.length (6 + 16 * i) (imgs.getD i ⟨0, []⟩)
        (icoOffset imgs i)).flatten
    ++ (List.range imgs.length).map fun i =>
        BufOp.copyFrom i imgs.length (icoOffset imgs i))

/-- The registry rows of sizes present in the input mapping, in registry
order: type code and data of each chunk createIcns builds. -/
def icnsPresent (pngs : Nat → Option (List Nat)) : List (String × List Nat) :=
  icnsTypes.filterMap fun p => (pngs p.1).map fun png => (p.2, png)

/-- Offset of chunk j inside the ICNS output buffer. -/
def icnsChunkOffset (pres : List (String × List Nat)) (j : Nat) : Nat :=
  8 + ((pres.take j).map fun q => 8 + q.2.length).sum

/-- The op sequence of createIcns, run against a store holding the
present data buffers at ids 0..k-1: per present size allocate a chunk
buffer (id k+j), write its type code and big-endian length and copy the
data in; then allocate the container (id 2k), write magic and total
length, and copy every chunk buffer in at its running offset. -/
def icnsProgram (pngs : Nat → Option (List Nat)) : List BufOp :=
  (((List.range (icnsPresent pngs).length).map fun j =>
    [BufOp.alloc (8 + ((icnsPresent pngs).getD j ("", [])).2.length),
     BufOp.writeBytes ((icnsPresent pngs).length + j) 0
       (ascii ((icnsPresent pngs).getD j ("", [])).1),
     BufOp.writeBytes ((icnsPresent pngs).length + j) 4
       (beBytes 4 (8 + ((icnsPresent pngs).getD j ("", [])).2.length)),
     BufOp.copyFrom j ((icnsPresent pngs).length + j) 8]).flatten)
  ++ [BufOp.alloc (8 + ((icnsPresent pngs).map fun q => 8 + q.2.length).sum),
      BufOp.writeBytes (2 * (icnsPresent pngs).length) 0 (ascii "icns"),
      BufOp.writeBytes (2 * (icnsPresent pngs).length) 4
        (beBytes 4 (8 + ((icnsPresent pngs).map fun q => 8 + q.2.length).sum))]
  ++ (List.range (icnsPresent pngs).length).map fun j =>
      BufOp.copyFrom ((icnsPresent pngs).length + j)
        (2 * (icnsPresent pngs).length) (icnsChunkOffset (icnsPresent pngs) j)

theorem take_set_of_le (l : List (List Nat)) (t : Nat) (v : List Nat)
    (n : Nat) (h : n ≤ t) : (l.set t v).take n = l.take n := by
  induction l generalizing t n with
  | nil => simp
  | cons x xs ih =>
    cases t with
    | zero =>
      have : n = 0 := Nat.le_zero.mp h
      subst this
      simp
    | succ t =>
      cases n with
      | zero => simp
      | succ n =>
        simp only [List.set_cons_succ, List.take_succ_cons]
        rw [ih t n (Nat.le_of_succ_le_succ h)]

/-- Operations that only target buffer ids at or beyond n leave the
first n buffers of the store untouched. -/
theorem runOps_take_frame (n : Nat) :
    ∀ (ops : List BufOp) (st : List (List Nat)), n ≤ st.length →
      (∀ op ∈ ops, ∀ t, opTarget op = some t → n ≤ t) →
      (runOps st ops).take n = st.take n := by
  intro ops
  induction ops with
  | nil => intro st _ _; rfl
  | cons op rest ih =>
    intro st hn hops
    have hlen : n ≤ (stepOp st op).length := by
      cases op with
      | alloc m => simp [stepOp]; omega
      | writeBytes t off bs => simpa [stepOp, List.length_set] using hn
      | copyFrom s t off => simpa [stepOp, List.length_set] using hn
    have hstep : (stepOp st op).take n = st.take n := by
      cases op with
      | alloc m => exact List.take_append_of_le_length hn
      | writeBytes t off bs =>
        exact take_set_of_le _ _ _ _
          (hops (BufOp.writeBytes t off bs) (by simp) t rfl)
      | copyFrom s t off =>
        exact take_set_of_le _ _ _ _
          (hops (BufOp.copyFrom s t off) (by simp) t rfl)
    have htail := ih (stepOp st op) hlen
      (fun o ho t ht => hops o (List.mem_cons_of_mem _ ho) t ht)
    calc (runOps st (op :: rest)).take n
        = (runOps (stepOp st op) rest).take n := rfl
      _ = (stepOp st op).take n := htail
      _ = st.take n := hstep

theorem icoProgram_targets (imgs : List RasterImage) :
    ∀ op ∈ icoProgram imgs, ∀ t, opTarget op = some t → imgs.length ≤ t := by
  intro op hop t ht
  simp only [icoProgram, List.mem_cons, List.mem_append, List.mem_flatten,
    List.mem_map, List.mem_range] at hop
  rcases hop with rfl | rfl | rfl | rfl | hrest
  · simp [opTarget] at ht
  · simp [opTarget] at ht; omega
  · simp [opTarget] at ht; omega
  · simp [opTarget] at ht; omega
  · rcases hrest with ⟨l, ⟨i, _, rfl⟩, hop2⟩ | ⟨i, _, rfl⟩
    · simp only [icoEntryOps, List.mem_cons, List.not_mem_nil, or_false] at hop2
      rcases hop2 with rfl | rfl | rfl | rfl | rfl | rfl | rfl | rfl <;>
        (simp [opTarget] at ht; omega)
    · simp [opTarget] at ht; omega

theorem icnsProgram_targets (pngs : Nat → Option (List Nat)) :
    ∀ op ∈ icnsProgram pngs, ∀ t, opTarget op = some t →
      (icnsPresent pngs).length ≤ t := by
  intro op hop t ht
  simp only [icnsProgram, List.mem_cons, List.mem_append, List.mem_flatten,
    List.mem_map, List.mem_range, List.not_mem_nil, or_false] at hop
  rcases hop with (⟨l, ⟨j, _, rfl⟩, hop2⟩ | hmid) | ⟨j, _, rfl⟩
  · simp only [List.mem_cons, List.not_mem_nil, or_false] at hop2
    rcases hop2 with rfl | rfl | rfl | rfl <;> simp [opTarget] at ht <;> omega
  · rcases hmid with rfl | rfl | rfl
    · simp [opTarget] at ht
    · simp [opTarget] at ht; omega
    · simp [opTarget] at ht; omega
  · simp [opTarget] at ht; omega

/-- C10: neither encoder mutates any input data buffer: replaying every
buffer operation the encoders perform, in source order, leaves the input
buffers of the store byte-identical; only the freshly allocated output
and chunk buffers are written. -/
theorem encoders_preserve_inputs :
    (∀ imgs : List RasterImage,
      (runOps (imgs.map RasterImage.data) (icoProgram imgs)).take imgs.length =
        imgs.map RasterImage.data) ∧
    (∀ pngs : Nat → Option (List Nat),
      (runOps ((icnsPresent pngs).map Prod.snd) (icnsProgram pngs)).take
          (icnsPresent pngs).length =
        (icnsPresent pngs).map Prod.snd) := by
  constructor
  · intro imgs
    rw [runOps_take_frame imgs.length (icoProgram imgs) _
      (by simp) (icoProgram_targets imgs)]
    rw [show imgs.length = (imgs.map RasterImage.data).length by simp,
      List.take_length]
  · intro pngs
    rw [runOps_take_frame (icnsPresent pngs).length (icnsProgram pngs) _
      (by simp) (icnsProgram_targets pngs)]
    rw [show (icnsPresent pngs).length =
        ((icnsPresent pngs).map Prod.snd).length by simp,
      List.take_length]

set_option maxRecDepth 4000 in
/-- On the concrete three-image set, the op-level replay produces in the
output buffer exactly the bytes of the pure createIco, evidence that the
op program and the pure embedding describe the same encoder. -/
theorem icoProgram_agrees_on_example :
    (runOps (exIco.map RasterImage.data) (icoProgram exIco)).getD
        exIco.length [] = createIco exIco := by decide

/-- On the concrete two-size mapping, the op-level replay produces in
the container buffer exactly the bytes of the pure createIcns. -/
theorem icnsProgram_agrees_on_example :
    (runOps ((icnsPresent exIcns).map Prod.snd) (icnsProgram exIcns)).getD
        (2 * (icnsPresent exIcns).length) [] = createIcns exIcns := by decide

/-- Sanity: a one-image ICO evaluates to the expected 25 concrete
bytes (scenario-A style). -/
theorem createIco_single_image_bytes :
    createIco [⟨16, [7, 7, 7]⟩] =
      [0, 0, 1, 0, 1, 0,
       16, 16, 0, 0, 1, 0, 32, 0, 3, 0, 0, 0, 22, 0, 0, 0,
       7, 7, 7] := by decide

/-- Sanity: a one-size ICNS evaluates to the expected 20 concrete
bytes (scenario-B style). -/
theorem createIcns_single_size_bytes :
    createIcns (fun s => if s = 16 then some [1, 2, 3, 4] else none) =
      [105, 99, 110, 115, 0, 0, 0, 20,
       105, 99, 112, 52, 0, 0, 0, 12, 1, 2, 3, 4] := by decide
